import Mathlib

/-!
Verification development for the `filru` disk-based LRU cache
(`src/index.js`, with an earlier revision of the same module in
`src/unnamed/part_000`).

The JavaScript source is shallowly embedded below:

* byte payloads (`Buffer`s) become `List Nat`;
* the on-disk cache directory becomes a map `String → Option FileData`;
* each fallible filesystem primitive takes its outcome as an explicit
  oracle argument (`writeOk`, `touchOk`, per-path `unlinkOk`, a `statFn`
  returning `none` for a failed stat, and the `readdir` result as an
  `Except`);
* promise settlements are explicit values, including a `pending` outcome
  for promises the source leaves forever unsettled;
* `XXH.h64(key, seed).toString(16)` (the `xxhashjs` dependency) is
  embedded as the reference XXH64 algorithm over the UTF-8 bytes of the
  key, followed by minimal-width lowercase hex rendering, which is what
  the library's `UINT64.toString(16)` produces (no zero padding).

Machine arithmetic is `Nat` with explicit reduction modulo `2 ^ 64`.
-/

/-- Byte payloads (`Buffer` contents) as lists of byte values. -/
abbrev Bytes := List Nat

/-- Filesystem error classes surfaced by the source: `err.code === "ENOENT"`
is the "no such file" case that `get` treats specially; everything else is
a generic I/O failure. -/
inductive JsErr where
  | enoent
  | ioerr
deriving Repr, DecidableEq

/-- JS relational comparison `x < y` where `x` may be `undefined`: the
comparison coerces `undefined` to `NaN`, and every comparison involving
`NaN` evaluates to `false`. -/
def jsLt : Option Int → Int → Bool
  | none, _ => false
  | some a, b => decide (a < b)

/-! ## XXH64 (the `xxhashjs` dependency, `XXH.h64`)

Reference 64-bit xxHash over a byte list, all arithmetic modulo `2 ^ 64`.
Loops are expressed with an explicit fuel argument (always called with
fuel at least the byte count, which bounds the iteration count), so that
the definitions are structural and evaluate inside the kernel. -/

/-- Two to the sixty-fourth: the modulus of 64-bit arithmetic. -/
def M64 : Nat := 18446744073709551616

/-- First xxHash64 prime. -/
def xxPrime1 : Nat := 11400714785074694791
/-- Second xxHash64 prime. -/
def xxPrime2 : Nat := 14029467366897019727
/-- Third xxHash64 prime. -/
def xxPrime3 : Nat := 1609587929392839161
/-- Fourth xxHash64 prime. -/
def xxPrime4 : Nat := 9650029242287828579
/-- Fifth xxHash64 prime. -/
def xxPrime5 : Nat := 2870177450012600261

/-- Rotate a 64-bit value left by `r` bits (callers keep `x < M64`,
`0 < r < 64`). -/
def rotl64 (x r : Nat) : Nat := ((x <<< r) % M64) ||| (x >>> (64 - r))

/-- The xxHash64 accumulator round. -/
def xxhRound (acc input : Nat) : Nat :=
  rotl64 ((acc + input * xxPrime2) % M64) 31 * xxPrime1 % M64

/-- The xxHash64 merge round used after the stripe loop. -/
def xxhMergeRound (h v : Nat) : Nat :=
  ((h ^^^ xxhRound 0 v) * xxPrime1 + xxPrime4) % M64

/-- Little-endian value of a byte list. -/
def readLE (bs : List Nat) : Nat := bs.foldr (fun b acc => b + acc * 256) 0

/-- Little-endian 64-bit read of the first 8 bytes. -/
def read64 (bs : List Nat) : Nat := readLE (bs.take 8)

/-- Little-endian 32-bit read of the first 4 bytes. -/
def read32 (bs : List Nat) : Nat := readLE (bs.take 4)

/-- The 32-byte stripe loop of xxHash64: consume stripes while at least 32
bytes remain, updating the four accumulators. -/
def xxhStripes (fuel : Nat) (v1 v2 v3 v4 : Nat) (bs : List Nat) :
    (Nat × Nat × Nat × Nat) × List Nat :=
  match fuel with
  | 0 => ((v1, v2, v3, v4), bs)
  | fuel + 1 =>
    if 32 ≤ bs.length then
      xxhStripes fuel
        (xxhRound v1 (read64 bs))
        (xxhRound v2 (read64 (bs.drop 8)))
        (xxhRound v3 (read64 (bs.drop 16)))
        (xxhRound v4 (read64 (bs.drop 24)))
        (bs.drop 32)
    else ((v1, v2, v3, v4), bs)

/-- The 8-byte tail loop of xxHash64. -/
def xxhTail8 (fuel : Nat) (h : Nat) (bs : List Nat) : Nat × List Nat :=
  match fuel with
  | 0 => (h, bs)
  | fuel + 1 =>
    if 8 ≤ bs.length then
      xxhTail8 fuel
        ((rotl64 (h ^^^ xxhRound 0 (read64 bs)) 27 * xxPrime1 + xxPrime4) % M64)
        (bs.drop 8)
    else (h, bs)

/-- The single-byte tail loop of xxHash64. -/
def xxhTail1 (h : Nat) : List Nat → Nat
  | [] => h
  | b :: rest =>
    xxhTail1 ((rotl64 (h ^^^ (b * xxPrime5 % M64)) 11 * xxPrime1) % M64) rest

/-- The xxHash64 finalization avalanche. -/
def xxhAvalanche (h : Nat) : Nat :=
  let h1 := h ^^^ (h >>> 33)
  let h2 := h1 * xxPrime2 % M64
  let h3 := h2 ^^^ (h2 >>> 29)
  let h4 := h3 * xxPrime3 % M64
  h4 ^^^ (h4 >>> 32)

/-- xxHash64 of a byte list before the final avalanche. -/
def xxh64Core (bytes : List Nat) (seed : Nat) : Nat :=
  let len := bytes.length
  let start :=
    if 32 ≤ len then
      let s := xxhStripes len ((seed + xxPrime1 + xxPrime2) % M64)
        ((seed + xxPrime2) % M64) (seed % M64) ((seed + M64 - xxPrime1) % M64) bytes
      let v := s.1
      let h0 := (rotl64 v.1 1 + rotl64 v.2.1 7 + rotl64 v.2.2.1 12 +
        rotl64 v.2.2.2 18) % M64
      (xxhMergeRound (xxhMergeRound (xxhMergeRound (xxhMergeRound h0 v.1) v.2.1)
        v.2.2.1) v.2.2.2, s.2)
    else ((seed + xxPrime5) % M64, bytes)
  let withLen := (start.1 + len) % M64
  let t8 := xxhTail8 start.2.length withLen start.2
  let t4 :=
    if 4 ≤ t8.2.length then
      ((rotl64 (t8.1 ^^^ (read32 t8.2 * xxPrime1 % M64)) 23 * xxPrime2 +
        xxPrime3) % M64, t8.2.drop 4)
    else t8
  xxhTail1 t4.1 t4.2

/-- xxHash64 of a byte list with a seed, as computed by `XXH.h64`. -/
def xxh64 (bytes : List Nat) (seed : Nat) : Nat :=
  xxhAvalanche (xxh64Core bytes seed)

/-- UTF-8 encoding of one character. -/
def charUtf8 (c : Char) : List Nat :=
  let n := c.toNat
  if n < 128 then [n]
  else if n < 2048 then [192 ||| (n >>> 6), 128 ||| (n &&& 63)]
  else if n < 65536 then
    [224 ||| (n >>> 12), 128 ||| ((n >>> 6) &&& 63), 128 ||| (n &&& 63)]
  else
    [240 ||| (n >>> 18), 128 ||| ((n >>> 12) &&& 63),
      128 ||| ((n >>> 6) &&& 63), 128 ||| (n &&& 63)]

/-- UTF-8 bytes of a string (what `xxhashjs` hashes for a string input;
for ASCII keys these are exactly the character codes). -/
def utf8Bytes (s : String) : List Nat := (s.data.map charUtf8).flatten

/-! ## Hex rendering (`UINT64.toString(16)` of the `cuint` library)

The library renders by repeated division: most significant digit first,
no leading zeros, `"0"` for zero, lowercase digits. -/

/-- The lowercase hex digit for a value below 16 (`'0'` is 48, `'a'` is 97). -/
def hexDigitChar (n : Nat) : Char :=
  if n < 10 then Char.ofNat (48 + n) else Char.ofNat (87 + n)

/-- Digits of `n` in base 16, most significant first, empty for zero.
`fuel` bounds the digit count; every call site passes fuel at least the
number of digits, so the fuel never runs out. -/
def hexDigitsAux : Nat → Nat → List Char
  | _, 0 => []
  | 0, _ + 1 => []
  | fuel + 1, n + 1 =>
    hexDigitsAux fuel ((n + 1) / 16) ++ [hexDigitChar ((n + 1) % 16)]

/-- Minimal-width lowercase hexadecimal rendering of a 64-bit value, as
produced by `toString(16)` on the hash result: no zero padding. -/
def uintToHexString (n : Nat) : String :=
  if n = 0 then "0" else String.mk (hexDigitsAux 64 n)

/-! ## The `Filru` class (src/index.js) -/

/-- The fixed hash seed (src/index.js:7, `const HASH_SEED = 0xabcd`). -/
def HASH_SEED : Nat := 43981

/-- Instance state stored by the constructor (src/index.js:28-34): `dir`,
`maxBytes`, `maxAge`, `stopped`, `load`.  (`_timeout` only carries the
timer handle and is not part of any claim's state.)  A configured
load-on-miss collaborator is modelled as a pure function from the key to
the bytes its promise resolves with. -/
structure Filru where
  dir : String
  maxBytes : Int
  maxAge : Int
  stopped : Bool
  load : Option (String → Bytes)

/-- Constructor arguments (src/index.js:16): `{ dir, maxBytes, loadFunc,
maxAge = 0 }`. -/
structure FilruConfig where
  dir : String
  maxBytes : Int
  loadFunc : Option (String → Bytes)
  maxAge : Int

/-- The constructor (src/index.js:16-35).  `!dir` for a string means the
empty string; `!maxBytes || maxBytes < 1` collapses to `maxBytes < 1`
over the integers; `if (maxAge)` is `maxAge ≠ 0`, and then
`maxAge < 1` throws.  On success the instance stores exactly
`dir`, `maxBytes`, `maxAge`, `stopped = false` and `load`. -/
def mkFilru (c : FilruConfig) : Except String Filru :=
  if c.dir = "" then .error "filru: dir is invalid"
  else if c.maxBytes < 1 then
    .error "filru: maxBytes must be a number greater than 0"
  else if c.maxAge ≠ 0 ∧ c.maxAge < 1 then
    .error "filru: maxAge must be a number greater than 0"
  else .ok ⟨c.dir, c.maxBytes, c.maxAge, false, c.loadFunc⟩

/-- The static hash (src/index.js:37-39):
`XXH.h64(key, HASH_SEED).toString(16)`.  A static method: it reads no
instance state. -/
def Filru.hash (key : String) : String :=
  uintToHexString (xxh64 (utf8Bytes key) HASH_SEED)

/-- The path computed at the top of `get`/`set`/`touch`/`del`
(src/index.js:67-68 etc.): `this.dir + "/" + Filru.hash(key)`. -/
def Filru.fullpath (f : Filru) (key : String) : String :=
  f.dir ++ "/" ++ Filru.hash key

/-! ## Filesystem model and the per-entry operations -/

/-- Contents and stat times of one file. -/
structure FileData where
  bytes : Bytes
  mtime : Int
  atime : Int
deriving Repr, DecidableEq

/-- The cache directory: a partial map from full paths to file data. -/
def FSModel := String → Option FileData

/-- Point update of the filesystem map. -/
def fsUpdate (fs : FSModel) (p : String) (d : FileData) : FSModel :=
  fun q => if q = p then some d else fs q

/-- Settlement of the promise returned by `get`: it resolves with a
buffer, rejects with an error, or — when the file is absent and a load
function is configured — never settles at all, the invoked collaborator's
result (recorded here) being discarded. -/
inductive GetOutcome where
  | resolved (buf : Bytes)
  | rejected (e : JsErr)
  | pending (loadResult : Bytes)
deriving Repr, DecidableEq

/-- `touch(key)` (src/index.js:101-110): fire-and-forget
`fs.utimes(fullpath, newTime, newTime)` setting access and modification
time to the current time; any failure (`utimesOk = false`, or the file
being gone) is only logged. -/
def Filru.touch (f : Filru) (fs : FSModel) (now : Int) (utimesOk : Bool)
    (key : String) : FSModel :=
  let fullpath := Filru.fullpath f key
  match fs fullpath, utimesOk with
  | some d, true => fsUpdate fs fullpath ⟨d.bytes, now, now⟩
  | _, _ => fs

/-- `get(key)` (src/index.js:66-84).  `fs.readFile` fails with `ENOENT`
when the file is absent; in that case, with a load function configured,
the callback does `return this.load(key)` — which merely leaves the
callback, so the promise returned by `get` never settles.  Without a
load function the promise rejects.  On success `this.touch(key)` runs as
a side effect and the promise resolves with the buffer. -/
def Filru.get (f : Filru) (fs : FSModel) (now : Int) (touchOk : Bool)
    (key : String) : GetOutcome × FSModel :=
  let fullpath := Filru.fullpath f key
  match fs fullpath with
  | none =>
    match f.load with
    | some loadFn => (.pending (loadFn key), fs)
    | none => (.rejected .enoent, fs)
  | some d => (.resolved d.bytes, Filru.touch f fs now touchOk key)

/-- `set(key, contents)` (src/index.js:86-99): `fs.writeFile` replaces
the whole file (modification time becomes the current time); on success
the promise resolves with `Buffer.from(contents)`, a byte-for-byte copy
of the payload; on failure it rejects. -/
def Filru.set (f : Filru) (fs : FSModel) (now : Int) (writeOk : Bool)
    (key : String) (contents : Bytes) : Except JsErr Bytes × FSModel :=
  let fullpath := Filru.fullpath f key
  if writeOk then
    let atime := match fs fullpath with
      | some old => old.atime
      | none => now
    (.ok contents, fsUpdate fs fullpath ⟨contents, now, atime⟩)
  else (.error .ioerr, fs)

/-! ## The sweep pipeline (src/index.js:153-295) -/

/-- One stat record of the sweep (src/index.js:275-281): the class
`FilruStat` stores exactly `name` (the full path), `time` and `size`. -/
structure FilruStat where
  name : String
  time : Int
  size : Int
deriving Repr, DecidableEq

/-- The JS class `FilruStat` declares no `ctime` property, so the access
`file.ctime` in the age-eviction loop (src/index.js:183) evaluates to
`undefined`. -/
def FilruStat.ctime (_ : FilruStat) : Option Int := none

/-- `doStat(fullpath)` (src/index.js:256-273): a failed `fs.stat`
(modelled by `statFn` returning `none`) is only logged, and time and size
stay `0`; the promise always resolves with a `FilruStat`. -/
def doStat (statFn : String → Option (Int × Int)) (fullpath : String) :
    FilruStat :=
  match statFn fullpath with
  | some ts => ⟨fullpath, ts.1, ts.2⟩
  | none => ⟨fullpath, 0, 0⟩

/-- Recursion of `forEachPromise` (src/index.js:283-295).  Each link of
the promise chain first pushes the previous link's result if it is truthy
(the initial link's resolution value, `undefined`, is skipped), then
invokes `fn` on its own item.  The final `.then(() => results)` pushes
nothing, so the last item's result is never collected; and a rejection by
`fn` short-circuits the rest of the chain.  Alongside the source's
result, the model returns the list of items on which `fn` was actually
invoked. -/
def fepGo {α β : Type} {ε : Type} (fn : α → Except ε β) (truthy : β → Bool)
    (results : List β) (prev : Option β) (attempted : List α) :
    List α → Except ε (List β) × List α
  | [] => (.ok results.reverse, attempted.reverse)
  | item :: rest =>
    let results1 := match prev with
      | some r => if truthy r then r :: results else results
      | none => results
    match fn item with
    | .error e => (.error e, (item :: attempted).reverse)
    | .ok r => fepGo fn truthy results1 (some r) (item :: attempted) rest

/-- `forEachPromise(items, fn)` (src/index.js:283-295), with the list of
items on which `fn` was invoked as the second component. -/
def forEachPromise {α β : Type} {ε : Type} (fn : α → Except ε β)
    (truthy : β → Bool) (items : List α) : Except ε (List β) × List α :=
  fepGo fn truthy [] none [] items

/-- The comparator `(a, b) => b.time - a.time` (src/index.js:246) orders
by descending modification time; the sort is modelled by a stable
insertion sort under this order. -/
def jsSortByTimeDesc (l : List FilruStat) : List FilruStat :=
  l.insertionSort (fun a b => b.time ≤ a.time)

/-- `statAllAndSort(dir, files)` (src/index.js:243-250): map the
filenames to full paths, stat them through `forEachPromise` (whose chain
never rejects, since `doStat` always resolves), and sort the collected
records newest first. -/
def statAllAndSort (statFn : String → Option (Int × Int)) (dir : String)
    (files : List String) : List FilruStat :=
  let fullPaths := files.map (fun filename => dir ++ "/" ++ filename)
  match (forEachPromise (fun p => (.ok (doStat statFn p) : Except Empty FilruStat))
      (fun _ => true) fullPaths).1 with
  | .ok allStats => jsSortByTimeDesc allStats
  | .error e => e.elim

/-- Phase 1 of `run` (src/index.js:175-190): when `maxAge` is truthy,
every file with `file.ctime < oldestTime` is scheduled for deletion.
`file.ctime` is `undefined` (the field does not exist on `FilruStat`), so
the comparison is the always-false `jsLt`. -/
def phase1Deletions (maxAge now : Int) (filesSorted : List FilruStat) :
    List String :=
  if maxAge ≠ 0 then
    (filesSorted.filter (fun file => jsLt file.ctime (now - maxAge))).map
      FilruStat.name
  else []

/-- The second pass of Phase 1 (src/index.js:194-199): for each scheduled
name, `findIndex` + `splice` removes the first record with that name from
the working array. -/
def spliceOut (deleteNames : List String) (l : List FilruStat) :
    List FilruStat :=
  deleteNames.foldl (fun acc n => acc.eraseP (fun f => f.name == n)) l

/-- Phase 2 of `run` (src/index.js:208-217): walk the working list
accumulating `sizeUpTo += file.size` and schedule every file reached once
`sizeUpTo > maxBytes` holds. -/
def phase2Deletions (maxBytes : Int) : Int → List FilruStat → List String
  | _, [] => []
  | sizeUpTo, file :: rest =>
    let s := sizeUpTo + file.size
    if maxBytes < s then file.name :: phase2Deletions maxBytes s rest
    else phase2Deletions maxBytes s rest

/-- What one invocation of `run` (src/index.js:153-231) does: the full
paths it schedules for deletion (Phase 1 first, then Phase 2), whether
`runNext` armed the timer for the next sweep, and whether the promise
returned by `run` rejected (it never does: a `readdir` failure resolves
it with the error, and later failures are caught). -/
structure SweepResult where
  deletions : List String
  rescheduled : Bool
  promiseRejected : Bool
deriving Repr, DecidableEq

/-- `run()` (src/index.js:153-231).  On a `readdir` failure the callback
resolves with the error and returns — `runNext` is never reached, so no
next sweep is scheduled.  Otherwise the sorted stat list goes through
Phase 1 (age) and Phase 2 (size), `sizeUpTo` starting at 0, and `runNext`
runs whether the deletions settle or fail (`.then(runNext)` /
`.catch(... runNext())`), arming the timer unless `stopped`. -/
def Filru.run (f : Filru) (now : Int) (dirList : Except JsErr (List String))
    (statFn : String → Option (Int × Int)) : SweepResult :=
  match dirList with
  | .error _ => ⟨[], false, false⟩
  | .ok files =>
    let filesSorted := statAllAndSort statFn f.dir files
    let ageDeletes := phase1Deletions f.maxAge now filesSorted
    let working := spliceOut ageDeletes filesSorted
    let sizeDeletes := phase2Deletions f.maxBytes 0 working
    ⟨ageDeletes ++ sizeDeletes, !f.stopped, false⟩

/-- Settlement of the promise returned by `reset`: it resolves (with the
`readdir` error object, or with `undefined`, modelled as `none`), or
never settles. -/
inductive ResetOutcome where
  | resolvedWith (v : Option JsErr)
  | pending
deriving Repr, DecidableEq

/-- `reset()` (src/index.js:135-151).  A `readdir` failure resolves the
promise with the error object.  Otherwise the files are unlinked through
`forEachPromise` with `_unlink` (src/index.js:121-133), which resolves
with the full path (a truthy, nonempty string) or rejects; on a rejection
the `.then` handler never runs and `resolve` is never called, so the
promise never settles.  On success it resolves with `undefined`.  The
second component is the list of paths whose unlink was attempted. -/
def Filru.reset (f : Filru) (dirList : Except JsErr (List String))
    (unlinkOk : String → Bool) : ResetOutcome × List String :=
  match dirList with
  | .error e => (.resolvedWith (some e), [])
  | .ok files =>
    let fullPaths := files.map (fun filename => f.dir ++ "/" ++ filename)
    match forEachPromise
        (fun p => if unlinkOk p then (.ok p : Except JsErr String)
          else .error .ioerr)
        (fun s => s != "") fullPaths with
    | (.ok _, attempted) => (.resolvedWith none, attempted)
    | (.error _, attempted) => (.pending, attempted)

/-! ## Spec-side definitions (for refinement-style comparison) -/

/-- Modelled from the spec's words for the Phase 2 claim: the number of
entries in the maximal newest-first prefix whose cumulative size stays
within `maxBytes`, starting from an accumulated size `acc`. -/
def specRetainedCount (maxBytes : Int) : Int → List FilruStat → Nat
  | _, [] => 0
  | acc, f :: rest =>
    if acc + f.size ≤ maxBytes then
      specRetainedCount maxBytes (acc + f.size) rest + 1
    else 0

/-- Total size of a stat list. -/
def sumSizes (l : List FilruStat) : Int := (l.map FilruStat.size).sum

/-! ## Helper lemmas -/

/-- Every stat of a list with nonnegative sizes is scheduled by Phase 2
once the accumulated size has already passed the budget. -/
theorem phase2Deletions_all (maxBytes : Int) (l : List FilruStat) :
    ∀ acc : Int, (∀ f ∈ l, 0 ≤ f.size) → maxBytes < acc →
    phase2Deletions maxBytes acc l = l.map FilruStat.name := by
  induction l with
  | nil => intro acc _ _; rfl
  | cons f rest ih =>
    intro acc hnn hlt
    have hf : 0 ≤ f.size := hnn f (List.mem_cons_self f rest)
    have hlt2 : maxBytes < acc + f.size := by omega
    simp only [phase2Deletions, if_pos hlt2, List.map_cons]
    rw [ih (acc + f.size) (fun g hg => hnn g (List.mem_cons_of_mem f hg)) hlt2]

/-- The retained-prefix count never exceeds the list length. -/
theorem specRetainedCount_le_length (maxBytes : Int) (l : List FilruStat) :
    ∀ acc : Int, specRetainedCount maxBytes acc l ≤ l.length := by
  induction l with
  | nil => intro acc; exact Nat.le_refl 0
  | cons f rest ih =>
    intro acc
    simp only [specRetainedCount, List.length_cons]
    split
    · exact Nat.succ_le_succ (ih (acc + f.size))
    · exact Nat.zero_le _

/-- Phase 2 schedules exactly the suffix after the retained prefix, for
nonnegative sizes. -/
theorem phase2Deletions_eq_drop (maxBytes : Int) (l : List FilruStat) :
    ∀ acc : Int, (∀ f ∈ l, 0 ≤ f.size) →
    phase2Deletions maxBytes acc l =
      (l.drop (specRetainedCount maxBytes acc l)).map FilruStat.name := by
  induction l with
  | nil => intro acc _; rfl
  | cons f rest ih =>
    intro acc hnn
    by_cases h : acc + f.size ≤ maxBytes
    · simp only [phase2Deletions, specRetainedCount, if_pos h,
        if_neg (not_lt.mpr h), List.drop_succ_cons]
      exact ih (acc + f.size) (fun g hg => hnn g (List.mem_cons_of_mem f hg))
    · have h' : maxBytes < acc + f.size := not_le.mp h
      simp only [phase2Deletions, specRetainedCount, if_pos h',
        if_neg h, List.drop_zero, List.map_cons]
      rw [phase2Deletions_all maxBytes rest (acc + f.size)
        (fun g hg => hnn g (List.mem_cons_of_mem f hg)) h']

/-- Sizes of a nonnegative stat list sum to a nonnegative total. -/
theorem sumSizes_nonneg (l : List FilruStat) (h : ∀ f ∈ l, 0 ≤ f.size) :
    0 ≤ sumSizes l := by
  refine List.sum_nonneg ?_
  intro x hx
  obtain ⟨f, hf, rfl⟩ := List.mem_map.mp hx
  exact h f hf

/-- Characterization of the retained-prefix count: a prefix fits within
the budget exactly when it is no longer than the retained prefix. -/
theorem specRetainedCount_iff (maxBytes : Int) (l : List FilruStat) :
    ∀ acc : Int, (∀ f ∈ l, 0 ≤ f.size) → acc ≤ maxBytes → ∀ n ≤ l.length,
    (acc + sumSizes (l.take n) ≤ maxBytes ↔
      n ≤ specRetainedCount maxBytes acc l) := by
  induction l with
  | nil =>
    intro acc _ hacc n hn
    have : n = 0 := Nat.le_zero.mp hn
    subst this
    simp only [List.take_nil, specRetainedCount, sumSizes, List.map_nil,
      List.sum_nil, Int.add_zero]
    exact ⟨fun _ => Nat.le_refl 0, fun _ => hacc⟩
  | cons f rest ih =>
    intro acc hnn hacc n hn
    have hrest : ∀ g ∈ rest, 0 ≤ g.size :=
      fun g hg => hnn g (List.mem_cons_of_mem f hg)
    cases n with
    | zero =>
      simp only [List.take_zero, sumSizes, List.map_nil, List.sum_nil,
        Int.add_zero]
      exact ⟨fun _ => Nat.zero_le _, fun _ => hacc⟩
    | succ m =>
      have hsum : sumSizes (f :: rest.take m) =
          f.size + sumSizes (rest.take m) := by
        simp [sumSizes]
      by_cases h : acc + f.size ≤ maxBytes
      · simp only [specRetainedCount, if_pos h, List.take_succ_cons]
        rw [hsum]
        have hm : m ≤ rest.length := by
          simpa using Nat.succ_le_succ_iff.mp hn
        have := ih (acc + f.size) hrest h m hm
        constructor
        · intro hle
          exact Nat.succ_le_succ (this.mp (by omega))
        · intro hle
          have := this.mpr (Nat.succ_le_succ_iff.mp hle)
          omega
      · have h' : maxBytes < acc + f.size := not_le.mp h
        simp only [specRetainedCount, if_neg h, List.take_succ_cons]
        rw [hsum]
        constructor
        · intro hle
          have h0 : 0 ≤ sumSizes (rest.take m) :=
            sumSizes_nonneg _ (fun g hg => hrest g (List.take_subset m rest hg))
          omega
        · intro hle
          exact absurd hle (by omega)

/-- Claim C1.  For every sweep over a stat list sorted newest-first with
nonnegative entry sizes and a positive byte budget, Phase 2 schedules for
deletion exactly the entries at positions whose newest-first running
cumulative size strictly exceeds `maxBytes`: equivalently, it retains the
maximal newest-first prefix whose cumulative size is at most `maxBytes`
(which therefore fits the budget) and schedules every older entry, even
ones that would fit individually. -/
theorem filru_c1_phase2_cumulative_retention (files : List FilruStat)
    (maxBytes : Int)
    (hsorted : List.Sorted (fun a b => b.time ≤ a.time) files)
    (hnn : ∀ f ∈ files, 0 ≤ f.size) (hpos : 0 < maxBytes) :
    phase2Deletions maxBytes 0 files =
      (files.drop (specRetainedCount maxBytes 0 files)).map FilruStat.name ∧
    sumSizes (files.take (specRetainedCount maxBytes 0 files)) ≤ maxBytes ∧
    (∀ n ≤ files.length, (sumSizes (files.take n) ≤ maxBytes ↔
      n ≤ specRetainedCount maxBytes 0 files)) ∧
    ∀ i < files.length, (maxBytes < sumSizes (files.take (i + 1)) ↔
      specRetainedCount maxBytes 0 files ≤ i) := by
  have hiff : ∀ n ≤ files.length, (sumSizes (files.take n) ≤ maxBytes ↔
      n ≤ specRetainedCount maxBytes 0 files) := by
    intro n hn
    have := specRetainedCount_iff maxBytes files 0 hnn (le_of_lt hpos) n hn
    omega
  refine ⟨phase2Deletions_eq_drop maxBytes files 0 hnn, ?_, hiff, ?_⟩
  · exact (hiff _ (specRetainedCount_le_length maxBytes files 0)).mpr
      (Nat.le_refl _)
  · intro i hi
    have h2 := hiff (i + 1) (by omega)
    constructor
    · intro hgt
      have : ¬ (i + 1 ≤ specRetainedCount maxBytes 0 files) :=
        fun hle => absurd (h2.mpr hle) (not_le.mpr hgt)
      omega
    · intro hle
      by_contra hcon
      have := h2.mp (not_lt.mp hcon)
      omega

/-- Witness for C1 at the spec's own example: sizes 10, 10, 10 newest
first with a budget of 15 retain exactly the newest entry and schedule
the two older ones. -/
theorem filru_c1_witness :
    phase2Deletions 15 0 [⟨"d/c", 3, 10⟩, ⟨"d/b", 2, 10⟩, ⟨"d/a", 1, 10⟩] =
      (([⟨"d/c", 3, 10⟩, ⟨"d/b", 2, 10⟩, ⟨"d/a", 1, 10⟩] : List FilruStat).drop
        (specRetainedCount 15 0
          [⟨"d/c", 3, 10⟩, ⟨"d/b", 2, 10⟩, ⟨"d/a", 1, 10⟩])).map
        FilruStat.name :=
  (filru_c1_phase2_cumulative_retention
    [⟨"d/c", 3, 10⟩, ⟨"d/b", 2, 10⟩, ⟨"d/a", 1, 10⟩] 15
    (by decide) (by decide) (by decide)).1

/-- Claim C2 (code bug).  The age-eviction filter can never select a
file: `file.ctime` is `undefined` on a `FilruStat` (whose field is
`time`), and a JS comparison with `undefined` is always false.
Consequently a sweep with `maxAge = 1000` at `now = 10000` over a listing
whose (only collected) entry has modification time `8000` — strictly
older than the cutoff `9000`, so the claim requires its deletion —
schedules nothing at all. -/
theorem filru_c2_age_eviction_dead :
    (∀ (l : List FilruStat) (c : Int),
      l.filter (fun file => jsLt file.ctime c) = []) ∧
    Filru.run ⟨"d", 100, 1000, false, none⟩ 10000 (.ok ["a", "b"])
      (fun p => if p = "d/a" then some (8000, 1) else some (9500, 1)) =
      ⟨[], true, false⟩ := by
  constructor
  · intro l c
    induction l with
    | nil => rfl
    | cons f rest ih => simpa [FilruStat.ctime, jsLt] using ih
  · decide

/-- The chain of `forEachPromise` with a total function and always-truthy
results collects every result except the one still pending in `prev` at
the end — that is, all but the final item's. -/
theorem fepGo_total {α β : Type} (g : α → β) (results : List β) (prev : β)
    (attempted : List α) (items : List α) :
    (fepGo (fun a => (.ok (g a) : Except Empty β)) (fun _ => true) results
      (some prev) attempted items).1 =
    .ok (results.reverse ++ (prev :: items.map g).dropLast) := by
  induction items generalizing results prev attempted with
  | nil => simp [fepGo]
  | cons it rest ih =>
    simp only [fepGo, List.map_cons]
    rw [ih]
    show Except.ok (((prev :: results).reverse ++ _ : List β)) = _
    simp [List.dropLast]

/-- `forEachPromise` over a total, always-truthy function returns the
images of all items but the last. -/
theorem forEachPromise_total {α β : Type} (g : α → β) (items : List α) :
    (forEachPromise (fun a => (.ok (g a) : Except Empty β)) (fun _ => true)
      items).1 = .ok ((items.map g).dropLast) := by
  cases items with
  | nil => rfl
  | cons it rest =>
    show (fepGo _ _ [] (some (g it)) [it] rest).1 = _
    rw [fepGo_total]
    simp [List.dropLast]

/-- `statAllAndSort` always returns one record fewer than the number of
listed filenames: the final filename is statted but its record is dropped
by the promise chain. -/
theorem statAllAndSort_length (statFn : String → Option (Int × Int))
    (dir : String) (files : List String) :
    (statAllAndSort statFn dir files).length = files.length - 1 := by
  simp only [statAllAndSort]
  rw [forEachPromise_total (doStat statFn)]
  simp [jsSortByTimeDesc, List.length_insertionSort]

/-- Claim C3 (code bug).  Phase 0 does not produce one stat record per
listed filename: with a single listed file whose stat succeeds with
time 5 and size 7, the snapshot is empty, and in general `n` filenames
yield `n - 1` records, the last listed filename's record being discarded
by `forEachPromise`. -/
theorem filru_c3_snapshot_drops_last :
    statAllAndSort (fun p => if p = "d/a" then some (5, 7) else none) "d"
      ["a"] = [] ∧
    ∀ (statFn : String → Option (Int × Int)) (dir : String)
      (files : List String),
      (statAllAndSort statFn dir files).length = files.length - 1 :=
  ⟨by decide, statAllAndSort_length⟩

/-- Counterexample to C4: with a running (non-stopped) cache, a listing
failure makes the sweep delete nothing and reject nothing, but `runNext`
is never reached, so no next sweep is scheduled. -/
theorem filru_c4_counterexample :
    Filru.run ⟨"d", 100, 0, false, none⟩ 0 (.error .ioerr) (fun _ => none) =
      ⟨[], false, false⟩ := by
  decide

/-- Claim C4 as amended.  If listing the cache directory fails at the
start of a sweep, that sweep deletes nothing and the failure is not
surfaced as a rejection (the promise resolves with the error); however,
the next sweep is NOT scheduled — the early return skips `runNext`, so a
single listing failure permanently stops the sweeper until `start()` is
called again, whether or not the cache is stopped. -/
theorem filru_c4_amended (f : Filru) (now : Int) (e : JsErr)
    (statFn : String → Option (Int × Int)) :
    Filru.run f now (.error e) statFn = ⟨[], false, false⟩ := rfl


/-- Behaviour of the tail of the `forEachPromise` chain over `_unlink`,
starting after a successful unlink: the chain resolves exactly when every
remaining unlink succeeds, and the items actually passed to `_unlink` are
those up to and including the first failing one. -/
theorem fepGo_unlink_go (uok : String → Bool) (ps : List String) :
    ∀ (results : List String) (prev : String) (attempted : List String),
    (ps.all uok = true → ∃ l,
      fepGo (fun p => if uok p then (.ok p : Except JsErr String)
          else .error .ioerr) (fun s => s != "") results (some prev) attempted
          ps =
        (.ok l, attempted.reverse ++
          (ps.takeWhile uok ++ (ps.dropWhile uok).take 1))) ∧
    (ps.all uok = false →
      fepGo (fun p => if uok p then (.ok p : Except JsErr String)
          else .error .ioerr) (fun s => s != "") results (some prev) attempted
          ps =
        (.error .ioerr, attempted.reverse ++
          (ps.takeWhile uok ++ (ps.dropWhile uok).take 1))) := by
  induction ps with
  | nil =>
    intro results prev attempted
    refine ⟨fun _ => ⟨results.reverse, by simp [fepGo]⟩, fun hco => by simp at hco⟩
  | cons p rest ih =>
    intro results prev attempted
    cases hup : uok p with
    | true =>
      have hstep : fepGo (fun p => if uok p then (.ok p : Except JsErr String)
          else .error .ioerr) (fun s => s != "") results (some prev) attempted
          (p :: rest) =
          fepGo (fun p => if uok p then (.ok p : Except JsErr String)
            else .error .ioerr) (fun s => s != "")
            (if prev != "" then prev :: results else results) (some p)
            (p :: attempted) rest := by
        simp [fepGo, hup]
      constructor
      · intro hall
        have hrest : rest.all uok = true := by simpa [hup] using hall
        obtain ⟨l, hl⟩ := (ih (if prev != "" then prev :: results else results)
          p (p :: attempted)).1 hrest
        refine ⟨l, ?_⟩
        rw [hstep, hl]
        simp [List.takeWhile_cons, List.dropWhile_cons, hup]
      · intro hall
        have hrest : rest.all uok = false := by simpa [hup] using hall
        have hl := (ih (if prev != "" then prev :: results else results)
          p (p :: attempted)).2 hrest
        rw [hstep, hl]
        simp [List.takeWhile_cons, List.dropWhile_cons, hup]
    | false =>
      constructor
      · intro hall
        simp [hup] at hall
      · intro _
        simp [fepGo, hup, List.takeWhile_cons, List.dropWhile_cons]

/-- Behaviour of `forEachPromise` over `_unlink`: the chain resolves
exactly when every unlink succeeds, and the paths actually passed to
`_unlink` are those up to and including the first failing one — a single
failure short-circuits the rest of the chain. -/
theorem forEachPromise_unlink (uok : String → Bool) (ps : List String) :
    (ps.all uok = true → ∃ l,
      forEachPromise (fun p => if uok p then (.ok p : Except JsErr String)
          else .error .ioerr) (fun s => s != "") ps =
        (.ok l, ps.takeWhile uok ++ (ps.dropWhile uok).take 1)) ∧
    (ps.all uok = false →
      forEachPromise (fun p => if uok p then (.ok p : Except JsErr String)
          else .error .ioerr) (fun s => s != "") ps =
        (.error .ioerr, ps.takeWhile uok ++ (ps.dropWhile uok).take 1)) := by
  cases ps with
  | nil =>
    exact ⟨fun _ => ⟨[], by simp [forEachPromise, fepGo]⟩,
      fun hco => by simp at hco⟩
  | cons p rest =>
    cases hup : uok p with
    | true =>
      have hstep : forEachPromise (fun p => if uok p then
          (.ok p : Except JsErr String) else .error .ioerr) (fun s => s != "")
          (p :: rest) =
          fepGo (fun p => if uok p then (.ok p : Except JsErr String)
            else .error .ioerr) (fun s => s != "") [] (some p) [p] rest := by
        simp [forEachPromise, fepGo, hup]
      constructor
      · intro hall
        have hrest : rest.all uok = true := by simpa [hup] using hall
        obtain ⟨l, hl⟩ := (fepGo_unlink_go uok rest [] p [p]).1 hrest
        refine ⟨l, ?_⟩
        rw [hstep, hl]
        simp [List.takeWhile_cons, List.dropWhile_cons, hup]
      · intro hall
        have hrest : rest.all uok = false := by simpa [hup] using hall
        have hl := (fepGo_unlink_go uok rest [] p [p]).2 hrest
        rw [hstep, hl]
        simp [List.takeWhile_cons, List.dropWhile_cons, hup]
    | false =>
      constructor
      · intro hall
        simp [hup] at hall
      · intro _
        simp [forEachPromise, fepGo, hup, List.takeWhile_cons,
          List.dropWhile_cons]

/-- Claim C5 as amended.  A listing failure makes `reset` resolve with
the listing error object (not zero, but also not a rejection), with no
delete attempted.  With a listing in hand, the unlinks are attempted
strictly in listing order up to and including the first failure: when
every unlink succeeds the promise resolves with `undefined` (not a
count); when any unlink fails, the deletes after the first failing one
are never attempted and the promise never settles. -/
theorem filru_c5_amended (f : Filru) (files : List String)
    (uok : String → Bool) (e : JsErr) :
    Filru.reset f (.error e) uok = (.resolvedWith (some e), []) ∧
    Filru.reset f (.ok files) uok =
      ((if (files.map (fun n => f.dir ++ "/" ++ n)).all uok then
          ResetOutcome.resolvedWith none else .pending),
        (files.map (fun n => f.dir ++ "/" ++ n)).takeWhile uok ++
          ((files.map (fun n => f.dir ++ "/" ++ n)).dropWhile uok).take 1) := by
  refine ⟨rfl, ?_⟩
  cases hall : (files.map (fun n => f.dir ++ "/" ++ n)).all uok with
  | true =>
    obtain ⟨l, hl⟩ :=
      (forEachPromise_unlink uok (files.map (fun n => f.dir ++ "/" ++ n))).1 hall
    simp [Filru.reset, hl]
  | false =>
    have hl :=
      (forEachPromise_unlink uok (files.map (fun n => f.dir ++ "/" ++ n))).2 hall
    simp [Filru.reset, hl]

/-- Counterexample to C5: with files `a`, `b` listed and the unlink of
`d/a` failing, `reset` attempts only `d/a` — it does not continue to
`d/b` — and its promise never settles, so it cannot resolve with the
count of attempted deletions. -/
theorem filru_c5_counterexample :
    Filru.reset ⟨"d", 10, 0, false, none⟩ (.ok ["a", "b"])
      (fun p => p != "d/a") = (.pending, ["d/a"]) := by
  decide

/-- Reduction modulo `M64` lands below `2 ^ 64`. -/
theorem mod_M64_lt (x : Nat) : x % M64 < 2 ^ 64 := by
  have h : (2 : Nat) ^ 64 = M64 := by unfold M64; norm_num
  rw [h]
  exact Nat.mod_lt _ (by unfold M64; omega)

/-- A right shift never increases a natural number. -/
theorem shiftRight_le_self (x k : Nat) : x >>> k ≤ x := by
  rw [Nat.shiftRight_eq_div_pow]
  exact Nat.div_le_self _ _

/-- Xoring a 64-bit value with its own right shift stays 64-bit. -/
theorem xor_shiftRight_lt (x k : Nat) (hx : x < 2 ^ 64) :
    x ^^^ x >>> k < 2 ^ 64 :=
  Nat.xor_lt_two_pow hx (lt_of_le_of_lt (shiftRight_le_self x k) hx)

/-- The avalanche output is a 64-bit value whatever its input. -/
theorem xxhAvalanche_lt (h : Nat) : xxhAvalanche h < 2 ^ 64 := by
  unfold xxhAvalanche
  exact xor_shiftRight_lt _ 32 (mod_M64_lt _)

/-- The hash value is below `2 ^ 64`. -/
theorem xxh64_lt (bytes : List Nat) (seed : Nat) :
    xxh64 bytes seed < 2 ^ 64 := xxhAvalanche_lt _

/-- A value below `16 ^ k` renders to at most `k` hex digits. -/
theorem hexDigitsAux_length_le (fuel : Nat) :
    ∀ (k n : Nat), n < 16 ^ k → (hexDigitsAux fuel n).length ≤ k := by
  induction fuel with
  | zero =>
    intro k n _
    cases n <;> simp [hexDigitsAux]
  | succ fuel ih =>
    intro k n hn
    cases n with
    | zero => simp [hexDigitsAux]
    | succ m =>
      cases k with
      | zero =>
        simp only [pow_zero] at hn
        omega
      | succ k =>
        simp only [hexDigitsAux, List.length_append, List.length_cons,
          List.length_nil]
        have hdiv : (m + 1) / 16 < 16 ^ k := by
          rw [Nat.div_lt_iff_lt_mul (by norm_num : (0 : Nat) < 16)]
          calc m + 1 < 16 ^ (k + 1) := hn
            _ = 16 ^ k * 16 := by ring
        have := ih k ((m + 1) / 16) hdiv
        omega

/-- A nonzero value renders to at least one digit. -/
theorem hexDigitsAux_ne_nil (fuel n : Nat) (hf : fuel ≠ 0) (hn : n ≠ 0) :
    hexDigitsAux fuel n ≠ [] := by
  cases fuel with
  | zero => exact absurd rfl hf
  | succ f =>
    cases n with
    | zero => exact absurd rfl hn
    | succ m => simp [hexDigitsAux]

/-- Every rendered digit is a lowercase hexadecimal character. -/
theorem hexDigitsAux_mem (fuel : Nat) :
    ∀ n, ∀ c ∈ hexDigitsAux fuel n, c ∈ "0123456789abcdef".data := by
  induction fuel with
  | zero =>
    intro n c hc
    cases n <;> simp [hexDigitsAux] at hc
  | succ fuel ih =>
    intro n c hc
    cases n with
    | zero => simp [hexDigitsAux] at hc
    | succ m =>
      simp only [hexDigitsAux, List.mem_append, List.mem_singleton] at hc
      rcases hc with hc | hc
      · exact ih _ c hc
      · subst hc
        have hlt : (m + 1) % 16 < 16 := Nat.mod_lt _ (by norm_num)
        have hall : ∀ v < 16, hexDigitChar v ∈ "0123456789abcdef".data := by
          decide
        exact hall _ hlt

/-- Claim C6 as amended.  `hash` is deterministic (equal keys give equal
output) and returns the 64-bit seeded hash of the key rendered as
lowercase hexadecimal — but with leading zeros omitted (between 1 and 16
characters), not at a fixed width, so filenames can differ in length. -/
theorem filru_c6_amended (k k1 k2 : String) (hk : k1 = k2) :
    Filru.hash k1 = Filru.hash k2 ∧
    Filru.hash k = uintToHexString (xxh64 (utf8Bytes k) HASH_SEED) ∧
    xxh64 (utf8Bytes k) HASH_SEED < 2 ^ 64 ∧
    1 ≤ (Filru.hash k).length ∧ (Filru.hash k).length ≤ 16 ∧
    ∀ c ∈ (Filru.hash k).data, c ∈ "0123456789abcdef".data := by
  subst hk
  refine ⟨rfl, rfl, xxh64_lt _ _, ?_, ?_, ?_⟩
  · unfold Filru.hash uintToHexString
    by_cases h : xxh64 (utf8Bytes k) HASH_SEED = 0
    · rw [if_pos h]
      decide
    · rw [if_neg h]
      have hne := hexDigitsAux_ne_nil 64 _ (by norm_num) h
      have := List.length_pos.mpr hne
      simpa [String.length] using this
  · unfold Filru.hash uintToHexString
    by_cases h : xxh64 (utf8Bytes k) HASH_SEED = 0
    · rw [if_pos h]
      decide
    · rw [if_neg h]
      have hlt : xxh64 (utf8Bytes k) HASH_SEED < 16 ^ 16 := by
        have := xxh64_lt (utf8Bytes k) HASH_SEED
        calc xxh64 (utf8Bytes k) HASH_SEED < 2 ^ 64 := this
          _ ≤ 16 ^ 16 := by norm_num
      have := hexDigitsAux_length_le 64 16 _ hlt
      simpa [String.length] using this
  · intro c hc
    unfold Filru.hash uintToHexString at hc
    by_cases h : xxh64 (utf8Bytes k) HASH_SEED = 0
    · rw [if_pos h] at hc
      have h0 : ∀ c ∈ "0".data, c ∈ "0123456789abcdef".data := by decide
      exact h0 c hc
    · rw [if_neg h] at hc
      exact hexDigitsAux_mem 64 _ c hc

/-- Witness for C6 at the key `jimmy.txt` used in the repository's
README. -/
theorem filru_c6_witness :
    1 ≤ (Filru.hash "jimmy.txt").length ∧
    (Filru.hash "jimmy.txt").length ≤ 16 :=
  ⟨(filru_c6_amended "jimmy.txt" "a" "a" rfl).2.2.2.1,
    (filru_c6_amended "jimmy.txt" "a" "a" rfl).2.2.2.2.1⟩

/-- Counterexample to C6: the rendering is not fixed-width.  The key `7`
hashes (with the built-in seed) to a value whose top hex digit is zero,
so its filename has 15 characters, while the key `0` gets a 16-character
filename. -/
theorem filru_c6_counterexample :
    Filru.hash "7" = "e70518845e4533b" ∧
    Filru.hash "0" = "34d22a1b2e5632cf" ∧
    (Filru.hash "7").length ≠ (Filru.hash "0").length := by
  refine ⟨by decide, by decide, by decide⟩

/-- Claim C7.  For every key and byte payload (empty and binary payloads
included), a successful `set(k, v)` resolves with exactly the written
payload and overwrites any existing entry for `k`, and a `get(k)` issued
with no intervening operation resolves with exactly `v`, byte for byte —
whether or not the recency touch inside `get` succeeds. -/
theorem filru_c7_set_get_roundtrip (f : Filru) (fs : FSModel)
    (now now2 : Int) (touchOk : Bool) (k : String) (v : Bytes) :
    (Filru.set f fs now true k v).1 = .ok v ∧
    ((Filru.set f fs now true k v).2 (Filru.fullpath f k)).map
      FileData.bytes = some v ∧
    (Filru.get f (Filru.set f fs now true k v).2 now2 touchOk k).1 =
      .resolved v := by
  refine ⟨rfl, ?_, ?_⟩
  · simp [Filru.set, fsUpdate]
  · simp [Filru.set, Filru.get, Filru.touch, fsUpdate]

/-- Claim C8.  For a key whose entry exists, a successful `get` resolves
with the stored bytes and leaves them unchanged; as a side effect a
successful touch sets the entry's access and modification time to the
current time, which is at least any instant `tBefore` preceding the call;
and a failing touch is swallowed — `get` still resolves with the bytes
and the filesystem is untouched. -/
theorem filru_c8_get_touches (f : Filru) (fs : FSModel) (now tBefore : Int)
    (k : String) (d : FileData) (touchOk : Bool)
    (hx : fs (Filru.fullpath f k) = some d) (ht : tBefore ≤ now) :
    (Filru.get f fs now touchOk k).1 = .resolved d.bytes ∧
    ((Filru.get f fs now touchOk k).2 (Filru.fullpath f k)).map
      FileData.bytes = some d.bytes ∧
    (touchOk = true →
      (Filru.get f fs now touchOk k).2 (Filru.fullpath f k) =
        some ⟨d.bytes, now, now⟩ ∧
      ∀ d', (Filru.get f fs now touchOk k).2 (Filru.fullpath f k) =
        some d' → tBefore ≤ d'.mtime) ∧
    (touchOk = false → (Filru.get f fs now touchOk k).2 = fs) := by
  cases touchOk with
  | true =>
    refine ⟨?_, ?_, ?_, ?_⟩
    · simp [Filru.get, hx]
    · simp [Filru.get, Filru.touch, hx, fsUpdate]
    · intro _
      refine ⟨by simp [Filru.get, Filru.touch, hx, fsUpdate], ?_⟩
      intro d' hd'
      simp [Filru.get, Filru.touch, hx, fsUpdate] at hd'
      subst hd'
      simpa using ht
    · intro hco
      exact absurd hco (by simp)
  | false =>
    refine ⟨?_, ?_, ?_, ?_⟩
    · simp [Filru.get, hx]
    · simp [Filru.get, Filru.touch, hx]
    · intro hco
      exact absurd hco (by simp)
    · intro _
      simp [Filru.get, Filru.touch, hx]

/-- Witness for C8 on a filesystem where every path holds one byte with
times 5, read at time 7 with 6 as the instant before the call. -/
theorem filru_c8_witness :
    (Filru.get ⟨"d", 10, 0, false, none⟩ (fun _ => some ⟨[1], 5, 5⟩) 7 true
      "k").1 = .resolved [1] :=
  (filru_c8_get_touches ⟨"d", 10, 0, false, none⟩ (fun _ => some ⟨[1], 5, 5⟩)
    7 6 "k" ⟨[1], 5, 5⟩ true rfl (by norm_num)).1

/-- Claim C9 (code bug).  With no entry on disk: without a load
collaborator `get` rejects with `ENOENT` (the first conjunct, as the
claim states); with a collaborator configured, `get` invokes it, but
`return this.load(key)` merely exits the `readFile` callback — the
promise returned by `get` never resolves with the loaded bytes (it never
settles at all), contrary to the claim. -/
theorem filru_c9_load_never_settles :
    (Filru.get ⟨"d", 10, 0, false, none⟩ (fun _ => none) 0 true "k").1 =
      .rejected .enoent ∧
    (Filru.get ⟨"d", 10, 0, false, some fun _ => [1, 2, 3]⟩ (fun _ => none) 0
      true "k").1 = .pending [1, 2, 3] :=
  ⟨rfl, rfl⟩

/-- Claim C10.  The key→filename mapping is independent of construction
configuration: whatever two configurations both instances were built
from, each operation's path is the instance's directory joined with the
same filename `Filru.hash k`, the static seeded hash with the built-in
constant seed `0xabcd` (43981), which reads no instance state. -/
theorem filru_c10_filename_config_independent (cfg1 cfg2 : FilruConfig)
    (f1 f2 : Filru) (k : String) (h1 : mkFilru cfg1 = .ok f1)
    (h2 : mkFilru cfg2 = .ok f2) :
    Filru.fullpath f1 k = f1.dir ++ "/" ++ Filru.hash k ∧
    Filru.fullpath f2 k = f2.dir ++ "/" ++ Filru.hash k ∧
    Filru.hash k = uintToHexString (xxh64 (utf8Bytes k) 43981) :=
  ⟨rfl, rfl, rfl⟩

/-- Witness for C10 with two differently configured instances. -/
theorem filru_c10_witness :
    Filru.fullpath ⟨"d1", 5, 0, false, none⟩ "k" =
      "d1" ++ "/" ++ Filru.hash "k" :=
  (filru_c10_filename_config_independent ⟨"d1", 5, none, 0⟩
    ⟨"d2", 999, some fun _ => [], 12⟩ ⟨"d1", 5, 0, false, none⟩
    ⟨"d2", 999, 12, false, some fun _ => []⟩ "k" rfl rfl).1
